import Mathlib

/-!
Verification of the LMSR prediction-market pricing engine in
`backend/market_logic.py`, shallowly embedded over the real numbers.

Python floats are modelled as `ℝ`.  Where a property concerns floating-point
overflow, a second model (`pexp`, `cost_function_float`, `price_yes_float`)
tracks the one failure mode of Python's `math.exp`: it raises `OverflowError`
as soon as the mathematical result exceeds the largest finite IEEE-754 double.
Python `raise ValueError` is modelled as `Except.error`.
-/

namespace Market

/-- Errors raised by `cost_for_shares`.  The source raises `ValueError` with
message "delta must be positive" (here `invalidTrade`, the spec's
`InvalidTrade`) or "side must be 'YES' or 'NO'" (here `invalidSide`, the
spec's `InvalidSide`). -/
inductive MarketError where
  | invalidTrade
  | invalidSide
  deriving DecidableEq, Repr

/-- The YES side label, as the Python string literal "YES". -/
def YES : String := "YES"

/-- The NO side label, as the Python string literal "NO". -/
def NO : String := "NO"

/-- Python's `side.upper()`: upper-cases every character of the string
(ASCII case mapping, which is all that matters for comparing against
"YES"/"NO"). -/
def sideUpper (s : String) : String := String.mk (s.data.map Char.toUpper)

/-- `cost_function(q_yes, q_no, b)` from `market_logic.py`:
`exp_yes = math.exp(q_yes / b)`, `exp_no = math.exp(q_no / b)`,
result `b * math.log(exp_yes + exp_no)`.  Note the code computes the
exponentials directly; no log-sum-exp normalisation is performed, despite the
comment in the source. -/
noncomputable def cost_function (q_yes q_no b : ℝ) : ℝ :=
  b * Real.log (Real.exp (q_yes / b) + Real.exp (q_no / b))

/-- `cost_for_shares(q_yes, q_no, delta, side, b)` from `market_logic.py`:
computes `side_upper = side.upper()`, rejects `delta <= 0`, rejects
`side_upper not in {"YES", "NO"}`, then returns
`cost_function(after trade) - cost_function(before trade)`. -/
noncomputable def cost_for_shares (q_yes q_no delta : ℝ) (side : String) (b : ℝ) :
    Except MarketError ℝ :=
  let side_upper := sideUpper side
  if delta ≤ 0 then Except.error MarketError.invalidTrade
  else if ¬(side_upper = YES ∨ side_upper = NO) then Except.error MarketError.invalidSide
  else if side_upper = YES then
    Except.ok (cost_function (q_yes + delta) q_no b - cost_function q_yes q_no b)
  else
    Except.ok (cost_function q_yes (q_no + delta) b - cost_function q_yes q_no b)

/-- `price_yes(q_yes, q_no, b)` from `market_logic.py`:
`exp_yes = math.exp(q_yes / b)`, `exp_no = math.exp(q_no / b)`,
result `exp_yes / (exp_yes + exp_no)`.  Again no stabilisation. -/
noncomputable def price_yes (q_yes q_no b : ℝ) : ℝ :=
  Real.exp (q_yes / b) / (Real.exp (q_yes / b) + Real.exp (q_no / b))

/-- `price_no(q_yes, q_no, b)` from `market_logic.py`:
`return 1.0 - price_yes(q_yes, q_no, b)`. -/
noncomputable def price_no (q_yes q_no b : ℝ) : ℝ :=
  1 - price_yes q_yes q_no b

/-- The largest finite IEEE-754 double, `(2 - 2⁻⁵²) · 2¹⁰²³ ≈ 1.7977e308`. -/
noncomputable def FLOAT_MAX : ℝ := (2 - 2 ^ (-(52 : ℤ))) * 2 ^ (1023 : ℕ)

/-- Python's `math.exp` as it behaves on floats, keeping real-valued
precision but modelling its failure mode: it raises `OverflowError` (here
`none`) whenever the mathematical result exceeds the largest finite double.
Rounding and underflow are not modelled. -/
noncomputable def pexp (x : ℝ) : Option ℝ :=
  if Real.exp x ≤ FLOAT_MAX then some (Real.exp x) else none

/-- `cost_function` as executed on Python floats: each `math.exp` call can
overflow.  Mirrors the source line by line. -/
noncomputable def cost_function_float (q_yes q_no b : ℝ) : Option ℝ := do
  let exp_yes ← pexp (q_yes / b)
  let exp_no ← pexp (q_no / b)
  pure (b * Real.log (exp_yes + exp_no))

/-- `price_yes` as executed on Python floats: each `math.exp` call can
overflow.  Mirrors the source line by line. -/
noncomputable def price_yes_float (q_yes q_no b : ℝ) : Option ℝ := do
  let exp_yes ← pexp (q_yes / b)
  let exp_no ← pexp (q_no / b)
  pure (exp_yes / (exp_yes + exp_no))

/-- The spec's cost function, from its own words (section 4.1, Output):
`C = b · ln(exp(q_yes/b) + exp(q_no/b))`.  Stated independently of the
implementation so that `cost_for_shares` can be compared against it. -/
noncomputable def C_spec (x y b : ℝ) : ℝ :=
  b * Real.log (Real.exp (x / b) + Real.exp (y / b))

/-! ### Helper lemmas -/

/-- `exp x` exceeds the largest finite double once `x ≥ 710`
(the actual overflow threshold of `math.exp` is about 709.78). -/
lemma FLOAT_MAX_lt_exp {x : ℝ} (hx : 710 ≤ x) : FLOAT_MAX < Real.exp x := by
  have h0 : (0:ℝ) < 2 ^ (-(52 : ℤ)) := by positivity
  have h2 : (0:ℝ) < (2:ℝ) ^ (1023 : ℕ) := by positivity
  have hstep : FLOAT_MAX < 2 ^ (1024 : ℕ) := by
    rw [show (1024 : ℕ) = 1023 + 1 from rfl, pow_succ]
    unfold FLOAT_MAX
    nlinarith
  have hexp : (2:ℝ) ^ (1024 : ℕ) < Real.exp x := by
    have hlog : ((1024 : ℕ) : ℝ) * Real.log 2 < x := by
      have hl2 := Real.log_two_lt_d9
      push_cast
      linarith
    calc (2:ℝ) ^ (1024 : ℕ) = Real.exp (Real.log 2) ^ (1024 : ℕ) := by
          rw [Real.exp_log (by norm_num)]
      _ = Real.exp (((1024 : ℕ) : ℝ) * Real.log 2) := (Real.exp_nat_mul _ _).symm
      _ < Real.exp x := Real.exp_lt_exp.2 hlog
  linarith

/-- `math.exp` overflows (raises) for any argument of at least 710. -/
lemma pexp_eq_none {x : ℝ} (hx : 710 ≤ x) : pexp x = none :=
  if_neg (not_le.2 (FLOAT_MAX_lt_exp hx))

/-- The cost function is symmetric under swapping the YES and NO totals. -/
lemma cost_function_comm (x y b : ℝ) : cost_function x y b = cost_function y x b := by
  unfold cost_function
  rw [add_comm]

/-- The cost function strictly increases when shares are added to the first
side (for positive `b` and positive increment). -/
lemma cost_function_lt_add (q n b d : ℝ) (hb : 0 < b) (hd : 0 < d) :
    cost_function q n b < cost_function (q + d) n b := by
  unfold cost_function
  have hlt : Real.exp (q / b) < Real.exp ((q + d) / b) := by
    apply Real.exp_lt_exp.2
    gcongr
    linarith
  have hpos : (0 : ℝ) < Real.exp (q / b) + Real.exp (n / b) := by positivity
  have hsum : Real.exp (q / b) + Real.exp (n / b)
      < Real.exp ((q + d) / b) + Real.exp (n / b) := by linarith
  exact mul_lt_mul_of_pos_left (Real.log_lt_log hpos hsum) hb

/-- Midpoint convexity of the cost function along the YES direction:
`2·C(q+d, n) ≤ C(q, n) + C(q+2d, n)`.  The exponential of the midpoint is the
geometric mean of the endpoint exponentials, so the inequality reduces to
AM-GM inside the logarithm. -/
lemma cost_function_midpoint (q n d b : ℝ) (hb : 0 < b) :
    2 * cost_function (q + d) n b
      ≤ cost_function q n b + cost_function (q + 2 * d) n b := by
  have hE : (0 : ℝ) < Real.exp (n / b) := Real.exp_pos _
  have hs : Real.exp (q / (2 * b)) * Real.exp (q / (2 * b)) = Real.exp (q / b) := by
    rw [← Real.exp_add]
    congr 1
    ring
  have ht : Real.exp ((q + 2 * d) / (2 * b)) * Real.exp ((q + 2 * d) / (2 * b))
      = Real.exp ((q + 2 * d) / b) := by
    rw [← Real.exp_add]
    congr 1
    ring
  have hst : Real.exp (q / (2 * b)) * Real.exp ((q + 2 * d) / (2 * b))
      = Real.exp ((q + d) / b) := by
    rw [← Real.exp_add]
    congr 1
    ring
  have key : (Real.exp ((q + d) / b) + Real.exp (n / b)) ^ 2
      ≤ (Real.exp (q / b) + Real.exp (n / b))
        * (Real.exp ((q + 2 * d) / b) + Real.exp (n / b)) := by
    rw [← hs, ← ht, ← hst]
    nlinarith [mul_nonneg (le_of_lt hE)
      (sq_nonneg (Real.exp (q / (2 * b)) - Real.exp ((q + 2 * d) / (2 * b))))]
  have p1 : (0 : ℝ) < Real.exp ((q + d) / b) + Real.exp (n / b) := by positivity
  have p2 : (0 : ℝ) < Real.exp (q / b) + Real.exp (n / b) := by positivity
  have p3 : (0 : ℝ) < Real.exp ((q + 2 * d) / b) + Real.exp (n / b) := by positivity
  have hlog : Real.log ((Real.exp ((q + d) / b) + Real.exp (n / b)) ^ 2)
      ≤ Real.log ((Real.exp (q / b) + Real.exp (n / b))
        * (Real.exp ((q + 2 * d) / b) + Real.exp (n / b))) :=
    Real.log_le_log (by positivity) key
  rw [Real.log_pow, Real.log_mul (ne_of_gt p2) (ne_of_gt p3)] at hlog
  push_cast at hlog
  unfold cost_function
  nlinarith [mul_le_mul_of_nonneg_left hlog (le_of_lt hb)]

/-! ### Claims -/

/-- Claim C1 (code bug): the spec mandates log-sum-exp stabilization so that
`price_yes(100000, 0, 1)` is finite in (0,1), but the code computes
`math.exp(q_yes / b)` directly; at `q_yes = 100000, q_no = 0, b = 1` the call
`math.exp(100000.0)` overflows the double range and raises, in both
`price_yes` and `cost_function`. -/
theorem price_yes_overflow_bug :
    price_yes_float 100000 0 1 = none ∧ cost_function_float 100000 0 1 = none := by
  have h : pexp (100000 : ℝ) = none := pexp_eq_none (by norm_num)
  constructor <;> simp [price_yes_float, cost_function_float, h]

/-- Claim C6 (code bug): the claim says `price_yes` never fails for finite
inputs, but at the finite input `q_yes = 1000, q_no = 0, b = 1` the
unstabilized `math.exp(1000.0)` overflows and the call raises instead of
returning a value in (0, 1). -/
theorem price_yes_fails_on_finite_input : price_yes_float 1000 0 1 = none := by
  have h : pexp (1000 : ℝ) = none := pexp_eq_none (by norm_num)
  simp [price_yes_float, h]

/-- Claim C3: `cost_for_shares` fails with `InvalidTrade` whenever
`delta ≤ 0`; fails with `InvalidSide` whenever `delta > 0` and the side does
not upper-case to "YES" or "NO"; and returns a cost (no error) whenever
`delta > 0` and the side does upper-case to "YES" or "NO". -/
theorem cost_for_shares_validation (q_yes q_no delta b : ℝ) (side : String) :
    (delta ≤ 0 →
      cost_for_shares q_yes q_no delta side b = Except.error MarketError.invalidTrade) ∧
    (0 < delta → ¬(sideUpper side = YES ∨ sideUpper side = NO) →
      cost_for_shares q_yes q_no delta side b = Except.error MarketError.invalidSide) ∧
    (0 < delta → (sideUpper side = YES ∨ sideUpper side = NO) →
      ∃ c, cost_for_shares q_yes q_no delta side b = Except.ok c) := by
  refine ⟨fun hd => ?_, fun hd hs => ?_, fun hd hs => ?_⟩
  · simp [cost_for_shares, hd]
  · simp [cost_for_shares, not_le.2 hd, hs]
  · rcases hs with h | h
    · refine ⟨cost_function (q_yes + delta) q_no b - cost_function q_yes q_no b, ?_⟩
      simp [cost_for_shares, not_le.2 hd, h]
    · refine ⟨cost_function q_yes (q_no + delta) b - cost_function q_yes q_no b, ?_⟩
      simp [cost_for_shares, not_le.2 hd, h, YES, NO]

/-- Witness for C3 at the spec's own example inputs. -/
theorem cost_for_shares_validation_witness :
    cost_for_shares 0 0 (-1) ("YES") 1 = Except.error MarketError.invalidTrade ∧
    cost_for_shares 0 0 1 ("MAYBE") 1 = Except.error MarketError.invalidSide ∧
    (∃ c, cost_for_shares 0 0 1 ("yes") 1 = Except.ok c) :=
  ⟨(cost_for_shares_validation 0 0 (-1) 1 ("YES")).1 (by norm_num),
   (cost_for_shares_validation 0 0 1 1 ("MAYBE")).2.1 (by norm_num) (by decide),
   (cost_for_shares_validation 0 0 1 1 ("yes")).2.2 (by norm_num) (Or.inl (by decide))⟩

/-- Claim C4: `price_no` is derived algebraically as `1 - price_yes`, so the
complement identity `price_yes + price_no = 1` holds exactly. -/
theorem price_no_complement (q_yes q_no b : ℝ) (hb : 0 < b) :
    price_no q_yes q_no b = 1 - price_yes q_yes q_no b ∧
    price_yes q_yes q_no b + price_no q_yes q_no b = 1 :=
  ⟨rfl, by unfold price_no; ring⟩

/-- Witness for C4 at `q_yes = 0, q_no = 0, b = 1`. -/
theorem price_no_complement_witness :
    (0:ℝ) < 1 ∧ (price_no 0 0 1 = 1 - price_yes 0 0 1 ∧
      price_yes 0 0 1 + price_no 0 0 1 = 1) :=
  ⟨by norm_num, price_no_complement 0 0 1 (by norm_num)⟩

/-- Claim C9: when both the quantity and the side are invalid, the quantity
check fires first: `cost_for_shares` returns `InvalidTrade`, not
`InvalidSide`. -/
theorem invalidTrade_precedence (q_yes q_no delta b : ℝ) (side : String)
    (hd : delta ≤ 0) (hs : ¬(sideUpper side = YES ∨ sideUpper side = NO)) :
    cost_for_shares q_yes q_no delta side b = Except.error MarketError.invalidTrade := by
  simp [cost_for_shares, hd]

/-- Witness for C9 at `delta = -1`, `side = "MAYBE"`. -/
theorem invalidTrade_precedence_witness :
    (-1 : ℝ) ≤ 0 ∧ ¬(sideUpper ("MAYBE") = YES ∨ sideUpper ("MAYBE") = NO) ∧
    cost_for_shares 0 0 (-1) ("MAYBE") 1 = Except.error MarketError.invalidTrade :=
  ⟨by norm_num, by decide,
   invalidTrade_precedence 0 0 (-1) 1 ("MAYBE") (by norm_num) (by decide)⟩

/-- Claim C2: for nonnegative share totals, positive liquidity, positive
`delta` and a side that upper-cases to "YES" or "NO", `cost_for_shares`
returns exactly `C(q_yes', q_no', b) - C(q_yes, q_no, b)` for the spec's cost
function `C`, where the traded side's total is incremented by `delta` and the
other total is unchanged. -/
theorem cost_for_shares_matches_spec (q_yes q_no delta b : ℝ) (side : String)
    (hy : 0 ≤ q_yes) (hn : 0 ≤ q_no) (hb : 0 < b) (hd : 0 < delta)
    (hside : sideUpper side = YES ∨ sideUpper side = NO) :
    cost_for_shares q_yes q_no delta side b = Except.ok
      (C_spec (if sideUpper side = YES then q_yes + delta else q_yes)
              (if sideUpper side = NO then q_no + delta else q_no) b
        - C_spec q_yes q_no b) := by
  rcases hside with h | h
  · simp [cost_for_shares, not_le.2 hd, h, C_spec, cost_function, YES, NO]
  · simp [cost_for_shares, not_le.2 hd, h, C_spec, cost_function, YES, NO]

/-- Witness for C2 at `q_yes = 0, q_no = 0, delta = 1, side = "YES", b = 1`. -/
theorem cost_for_shares_matches_spec_witness :
    (0 : ℝ) ≤ 0 ∧ (0 : ℝ) ≤ 0 ∧ (0 : ℝ) < 1 ∧ (0 : ℝ) < 1 ∧
    (sideUpper ("YES") = YES ∨ sideUpper ("YES") = NO) ∧
    cost_for_shares 0 0 1 ("YES") 1 = Except.ok
      (C_spec (if sideUpper ("YES") = YES then 0 + 1 else 0)
              (if sideUpper ("YES") = NO then 0 + 1 else 0) 1
        - C_spec 0 0 1) :=
  ⟨le_refl 0, le_refl 0, by norm_num, by norm_num, Or.inl (by decide),
   cost_for_shares_matches_spec 0 0 1 1 ("YES") (le_refl 0) (le_refl 0)
     (by norm_num) (by norm_num) (Or.inl (by decide))⟩

/-- Claim C5: for nonnegative share totals, positive liquidity, positive
`delta` and a valid side, the cost returned by `cost_for_shares` is strictly
positive. -/
theorem cost_for_shares_pos (q_yes q_no delta b : ℝ) (side : String)
    (hy : 0 ≤ q_yes) (hn : 0 ≤ q_no) (hb : 0 < b) (hd : 0 < delta)
    (hside : sideUpper side = YES ∨ sideUpper side = NO) :
    ∃ c, cost_for_shares q_yes q_no delta side b = Except.ok c ∧ 0 < c := by
  rcases hside with h | h
  · refine ⟨cost_function (q_yes + delta) q_no b - cost_function q_yes q_no b, ?_, ?_⟩
    · simp [cost_for_shares, not_le.2 hd, h]
    · have := cost_function_lt_add q_yes q_no b delta hb hd
      linarith
  · refine ⟨cost_function q_yes (q_no + delta) b - cost_function q_yes q_no b, ?_, ?_⟩
    · simp [cost_for_shares, not_le.2 hd, h, YES, NO]
    · have h1 := cost_function_lt_add q_no q_yes b delta hb hd
      have h2 := cost_function_comm q_yes (q_no + delta) b
      have h3 := cost_function_comm q_yes q_no b
      linarith

/-- Witness for C5 at `q_yes = 0, q_no = 0, delta = 1, side = "NO", b = 1`. -/
theorem cost_for_shares_pos_witness :
    (0 : ℝ) ≤ 0 ∧ (0 : ℝ) ≤ 0 ∧ (0 : ℝ) < 1 ∧ (0 : ℝ) < 1 ∧
    (sideUpper ("NO") = YES ∨ sideUpper ("NO") = NO) ∧
    ∃ c, cost_for_shares 0 0 1 ("NO") 1 = Except.ok c ∧ 0 < c :=
  ⟨le_refl 0, le_refl 0, by norm_num, by norm_num, Or.inr (by decide),
   cost_for_shares_pos 0 0 1 1 ("NO") (le_refl 0) (le_refl 0)
     (by norm_num) (by norm_num) (Or.inr (by decide))⟩

/-- Claim C7: with `q_no` and `b > 0` fixed, `price_yes` is strictly
increasing in `q_yes`. -/
theorem price_yes_strict_mono (q1 q2 q_no b : ℝ) (hb : 0 < b) (h : q1 < q2) :
    price_yes q1 q_no b < price_yes q2 q_no b := by
  unfold price_yes
  have e1 : (0 : ℝ) < Real.exp (q1 / b) := Real.exp_pos _
  have e2 : (0 : ℝ) < Real.exp (q2 / b) := Real.exp_pos _
  have eN : (0 : ℝ) < Real.exp (q_no / b) := Real.exp_pos _
  have hlt : Real.exp (q1 / b) < Real.exp (q2 / b) := by
    apply Real.exp_lt_exp.2
    gcongr
  rw [div_lt_div_iff₀ (by positivity) (by positivity)]
  nlinarith

/-- Witness for C7 at `q1 = 0, q2 = 1, q_no = 1, b = 1`. -/
theorem price_yes_strict_mono_witness :
    (0 : ℝ) < 1 ∧ (0 : ℝ) < 1 ∧ price_yes 0 1 1 < price_yes 1 1 1 :=
  ⟨by norm_num, by norm_num, price_yes_strict_mono 0 1 1 1 (by norm_num) (by norm_num)⟩

/-- Claim C10: swapping the two share totals while relabeling the sides
leaves everything unchanged: the cost function is symmetric, the YES price at
`(x, y)` is the NO price at `(y, x)`, and buying YES at `(x, y)` costs the
same as buying NO at `(y, x)`. -/
theorem swap_symmetry (x y delta b : ℝ) (hb : 0 < b) (hd : 0 < delta) :
    cost_function x y b = cost_function y x b ∧
    price_yes x y b = price_no y x b ∧
    cost_for_shares x y delta ("YES") b = cost_for_shares y x delta ("NO") b := by
  refine ⟨cost_function_comm x y b, ?_, ?_⟩
  · unfold price_no price_yes
    have hxy : Real.exp (x / b) + Real.exp (y / b) ≠ 0 := by positivity
    have hyx : Real.exp (y / b) + Real.exp (x / b) ≠ 0 := by positivity
    field_simp
    ring
  · have hY : sideUpper ("YES") = YES := by decide
    have hN : sideUpper ("NO") = NO := by decide
    simp [cost_for_shares, not_le.2 hd, hY, hN, YES, NO]
    rw [cost_function_comm y (x + delta) b, cost_function_comm y x b]

/-- Witness for C10 at `x = 0, y = 2, delta = 1, b = 1`. -/
theorem swap_symmetry_witness :
    (0 : ℝ) < 1 ∧ (0 : ℝ) < 1 ∧
    (cost_function 0 2 1 = cost_function 2 0 1 ∧
     price_yes 0 2 1 = price_no 2 0 1 ∧
     cost_for_shares 0 2 1 ("YES") 1 = cost_for_shares 2 0 1 ("NO") 1) :=
  ⟨by norm_num, by norm_num, swap_symmetry 0 2 1 1 (by norm_num) (by norm_num)⟩

/-- Claim C8: increasing marginal cost (slippage): for any fixed state and
any `d > 0`, buying `2d` YES shares in one trade costs at least twice the
cost of buying `d` YES shares from the same state. -/
theorem cost_for_shares_convexity (q_yes q_no d b : ℝ)
    (hy : 0 ≤ q_yes) (hn : 0 ≤ q_no) (hb : 0 < b) (hd : 0 < d) :
    ∃ c1 c2, cost_for_shares q_yes q_no d ("YES") b = Except.ok c1 ∧
      cost_for_shares q_yes q_no (2 * d) ("YES") b = Except.ok c2 ∧
      2 * c1 ≤ c2 := by
  have hY : sideUpper ("YES") = YES := by decide
  have hd2 : (0 : ℝ) < 2 * d := by linarith
  refine ⟨cost_function (q_yes + d) q_no b - cost_function q_yes q_no b,
          cost_function (q_yes + 2 * d) q_no b - cost_function q_yes q_no b, ?_, ?_, ?_⟩
  · simp [cost_for_shares, not_le.2 hd, hY]
  · simp [cost_for_shares, not_le.2 hd2, hY]
  · have hmid := cost_function_midpoint q_yes q_no d b hb
    linarith

/-- Witness for C8 at `q_yes = 0, q_no = 0, d = 1, b = 1`. -/
theorem cost_for_shares_convexity_witness :
    (0 : ℝ) ≤ 0 ∧ (0 : ℝ) ≤ 0 ∧ (0 : ℝ) < 1 ∧ (0 : ℝ) < 1 ∧
    ∃ c1 c2, cost_for_shares 0 0 1 ("YES") 1 = Except.ok c1 ∧
      cost_for_shares 0 0 (2 * 1) ("YES") 1 = Except.ok c2 ∧
      2 * c1 ≤ c2 :=
  ⟨le_refl 0, le_refl 0, by norm_num, by norm_num,
   cost_for_shares_convexity 0 0 1 1 (le_refl 0) (le_refl 0)
     (by norm_num) (by norm_num)⟩

end Market
